import Mathlib

/-!
GameEngine: frame loop and state-stack driver

A shallow embedding of `src/Engine/game_engine.cpp` (class `GameEngine`,
declared in `include/Engine/game_engine.h`).

* The engine object is a record of its member variables; every member
  function is a function on that record.
* Calls that leave the engine (OpenGL, SDL, the virtual hooks of a `State`)
  are recorded, in program order, on the `trace` field.  A hook of a scene
  state is an external call: it is recorded and does not call back into the
  engine.
* Values read from SDL (`SDL_PollEvent`, `SDL_GetMouseState`,
  `SDL_GetTicks`) are arguments of the function that reads them.
* `unsigned int` members are naturals reduced modulo `2^32`.
* `float` values that hold whole numbers are integers passed through
  `f32Round`, the round-to-nearest-even of IEEE single precision.
-/

namespace GameEngineSpec

/-- Identity of a scene state object: the value of a `State*`. -/
abbrev StateId := Nat

/-- The seven virtual member functions of `State` called by the engine. -/
inductive Hook where
  | init
  | cleanup
  | pause
  | resume
  | handleEvents
  | update
  | draw
deriving DecidableEq, Repr

/-- One call that leaves the engine. -/
inductive Effect where
  | hook (h : Hook) (s : StateId)
  | glViewport (w h : Nat)
  | glClearColor
  | glClear
  | glEnableBlend
  | glBlendFunc
  | getShader
  | setView
  | setProjection
  | boxRender
  | glDisableBlend
  | swapWindow
  | delay (ms : Nat)
  | setWindowTitle (fps : Nat)
  | deleteInput
  | sdlQuit
deriving DecidableEq, Repr

/-- Mirror of `enum class WindowState { RUNNING, EXIT }`. -/
inductive WindowState where
  | RUNNING
  | EXIT
deriving DecidableEq, Repr

/-- The two fields of `SDL_Event` read by `handleEvent`:
`evt.type` and `evt.key.keysym.sym`. -/
structure SDL_Event where
  type : Nat
  sym : Int
deriving DecidableEq, Repr

/-- Value of `SDL_QUIT` in SDL2. -/
def SDL_QUIT : Nat := 0x100
/-- Value of `SDL_KEYDOWN` in SDL2. -/
def SDL_KEYDOWN : Nat := 0x300
/-- Value of `SDL_KEYUP` in SDL2. -/
def SDL_KEYUP : Nat := 0x301
/-- Value of `SDLK_ESCAPE` in SDL2. -/
def SDLK_ESCAPE : Int := 27

/-- Modulus of `unsigned int` / `Uint32`. -/
def U32 : Nat := 2 ^ 32

/-- Subtraction of two `unsigned int` values. -/
def sub32 (a b : Nat) : Nat := (a % U32 + (U32 - b % U32)) % U32

/-- Addition of two `unsigned int` values. -/
def add32 (a b : Nat) : Nat := (a + b) % U32

/-- Number of low bits a whole number of magnitude `m` loses when it is
stored with 24 significant bits: the least `k` with `m / 2^k < 2^24`
(`fuel` bounds the search; 64 covers every sum or difference of two
32-bit integers). -/
def f32Shift (m : Nat) : Nat → Nat
  | 0 => 0
  | fuel + 1 => if m < 2 ^ 24 then 0 else f32Shift (m / 2) fuel + 1

/-- Conversion of a whole number to IEEE single precision (24 significant
bits, round to nearest, ties to even), given as the whole number the
resulting `float` holds. -/
def f32Round (n : Int) : Int :=
  let m := n.natAbs
  if m < 2 ^ 24 then n
  else
    let k := f32Shift m 64
    let q := m / 2 ^ k
    let r := m % 2 ^ k
    let half := 2 ^ (k - 1)
    let q1 := if half < r ∨ (r = half ∧ q % 2 = 1) then q + 1 else q
    Int.sign n * ((q1 * 2 ^ k : Nat) : Int)

/-- The member variables of `GameEngine` that the modelled functions use,
and the trace of external calls. `states` lists the vector front to back,
so `states.back()` is the last element. `mainCamera` is the `Camera*` used
by `draw` (`none` for `nullptr`). `targetFrameTime` holds the whole
milliseconds `(Uint32)(targetFrameTime)`. `mousePosX`, `mousePosY` are
`input->mousePos.x`, `input->mousePos.y`. -/
structure GameEngine where
  states : List StateId
  last : Nat
  _fps : Nat
  fps : Nat
  targetFrameTime : Nat
  windowState : WindowState
  screenWidth : Nat
  screenHeight : Nat
  debugFPS : Bool
  frameCounter : Int
  mainCamera : Option Nat
  mousePosX : Int
  mousePosY : Int
  trace : List Effect
deriving Repr

namespace GameEngine

/-- Append one external call to the trace. -/
def emit (e : GameEngine) (x : Effect) : GameEngine :=
  { e with trace := e.trace ++ [x] }

/-- The statement `if (!states.empty()) states.back()->h(this);`. -/
def callBack (h : Hook) (e : GameEngine) : GameEngine :=
  match e.states.getLast? with
  | none => e
  | some t => e.emit (.hook h t)

/-- The statement
`if (!states.empty()) { states.back()->cleanup(this); states.pop_back(); }`. -/
def cleanupBack (e : GameEngine) : GameEngine :=
  match e.states.getLast? with
  | none => e
  | some t => { e.emit (.hook .cleanup t) with states := e.states.dropLast }

/-- The statements `states.push_back(state); states.back()->init(this);`. -/
def pushInit (state : StateId) (e : GameEngine) : GameEngine :=
  callBack .init { e with states := e.states ++ [state] }

/-- The loop `while (!states.empty()) { states.back()->cleanup(this);
states.pop_back(); }` of `cleanup`. -/
def cleanupLoop (states : List StateId) (trace : List Effect) :
    List StateId × List Effect :=
  if h : states ≠ [] then
    cleanupLoop states.dropLast (trace ++ [.hook .cleanup (states.getLast h)])
  else (states, trace)
termination_by states.length
decreasing_by
  simp only [List.length_dropLast]
  have : 0 < states.length := List.length_pos.mpr h
  omega

/-- Member function `GameEngine::cleanup`. -/
def cleanup (e : GameEngine) : GameEngine :=
  let r := cleanupLoop e.states e.trace
  { e with states := r.1, trace := r.2 ++ [.deleteInput, .sdlQuit] }

/-- Member function `GameEngine::changeState`. -/
def changeState (state : StateId) (e : GameEngine) : GameEngine :=
  pushInit state (cleanupBack e)

/-- Member function `GameEngine::pushState`. -/
def pushState (state : StateId) (e : GameEngine) : GameEngine :=
  pushInit state (callBack .pause e)

/-- Member function `GameEngine::popState`. -/
def popState (e : GameEngine) : GameEngine :=
  callBack .resume (cleanupBack e)

/-- Member function `GameEngine::getFPS`; `now` is `SDL_GetTicks()`. -/
def getFPS (now : Nat) (e : GameEngine) : GameEngine :=
  let e1 :=
    if 1000 < sub32 now e.last then
      { e with fps := e._fps, _fps := 0, last := add32 e.last 1000 }
    else e
  { e1 with _fps := add32 e1._fps 1 }

/-- Member function `GameEngine::updateFPS`. -/
def updateFPS (now : Nat) (e : GameEngine) : GameEngine :=
  getFPS now e

/-- Member function `GameEngine::handleKeyEvent`. -/
def handleKeyEvent (eventType : Nat) (keycode : Int) (e : GameEngine) : GameEngine :=
  if eventType = SDL_KEYUP then
    if keycode = SDLK_ESCAPE then { e with windowState := .EXIT } else e
  else e

/-- Body of the `switch (evt.type)` in `handleEvent`. The cases
`SDL_KEYDOWN` and `SDL_KEYUP` have no `break` and run on into the
statement of `case SDL_QUIT`. -/
def switchEvent (e : GameEngine) (evt : SDL_Event) : GameEngine :=
  if evt.type = SDL_KEYDOWN ∨ evt.type = SDL_KEYUP then
    { handleKeyEvent evt.type evt.sym e with windowState := .EXIT }
  else if evt.type = SDL_QUIT then
    { e with windowState := .EXIT }
  else e

/-- The loop `while (SDL_PollEvent(&evt))` over the pending events. -/
def pollLoop (events : List SDL_Event) (e : GameEngine) : GameEngine :=
  events.foldl switchEvent e

/-- Member function `GameEngine::handleEvent`; `events` is what
`SDL_PollEvent` hands out until it returns 0, `(mouseX, mouseY)` is what
`SDL_GetMouseState` stores. In `mouseY = (float) screenHeight - mouseY` both
operands become `float`, the difference is a `float`, and storing it in the
`int` keeps its whole value (`mouseY1`); the two assignments to
`input->mousePos` convert `int` to `float` again. -/
def handleEvent (events : List SDL_Event) (mouseX mouseY : Int) (e : GameEngine) :
    GameEngine :=
  let e1 := pollLoop events e
  let mouseY1 : Int := f32Round (f32Round (e1.screenHeight : Int) - f32Round mouseY)
  let e2 := { e1 with mousePosX := f32Round mouseX, mousePosY := f32Round mouseY1 }
  callBack .handleEvents e2

/-- Member function `GameEngine::update`. -/
def update (e : GameEngine) : GameEngine :=
  callBack .update e

/-- Member function `GameEngine::draw`. -/
def draw (e : GameEngine) : GameEngine :=
  let e1 := e.emit (.glViewport e.screenWidth e.screenHeight)
  let e2 := (e1.emit .glClearColor).emit .glClear
  let e3 := (e2.emit .glEnableBlend).emit .glBlendFunc
  let e4 :=
    match e3.mainCamera with
    | some _ => ((e3.emit .getShader).emit .setView).emit .setProjection
    | none => e3
  let e5 := e4.emit .boxRender
  let e6 := e5.emit .glDisableBlend
  callBack .draw e6

/-- Member function `GameEngine::limitFPS`; `targetFrameTime` holds the
value of `(Uint32)(targetFrameTime)`. -/
def limitFPS (e : GameEngine) : GameEngine :=
  e.emit (.delay e.targetFrameTime)

/-- Member function `GameEngine::lateFPS`. -/
def lateFPS (e : GameEngine) : GameEngine :=
  let e1 := limitFPS (e.emit .swapWindow)
  if e1.debugFPS then
    let e2 := { e1 with frameCounter := e1.frameCounter + 1 }
    if e2.frameCounter = 60 then
      { e2.emit (.setWindowTitle e2.fps) with frameCounter := 0 }
    else e2
  else e1

/-- Inline member function `isRunning`. -/
def isRunning (e : GameEngine) : Bool :=
  decide (e.windowState = .RUNNING)

/-- Member function `GameEngine::getMousePos`: the `x` and `y` of
`input->mousePos`. -/
def getMousePos (e : GameEngine) : Int × Int :=
  (e.mousePosX, e.mousePosY)

end GameEngine

open GameEngine

/-- The hook calls of a trace, in order. -/
def hooksOf (tr : List Effect) : List (Hook × StateId) :=
  tr.filterMap fun x =>
    match x with
    | .hook h s => some (h, s)
    | _ => none

/-- The hook calls a trace makes on the state `s`, in order. -/
def callsOn (s : StateId) (tr : List Effect) : List Hook :=
  ((hooksOf tr).filter fun p => decide (p.2 = s)).map Prod.fst

/-- One call of a driver on the state stack or of a per-frame phase. -/
inductive Op where
  | changeState (s : StateId)
  | pushState (s : StateId)
  | popState
  | handleEvent (events : List SDL_Event) (mouseX mouseY : Int)
  | update
  | draw
deriving Repr

/-- Run one driver call. -/
def applyOp (e : GameEngine) : Op → GameEngine
  | .changeState s => e.changeState s
  | .pushState s => e.pushState s
  | .popState => e.popState
  | .handleEvent evs x y => e.handleEvent evs x y
  | .update => e.update
  | .draw => e.draw

/-- Run a sequence of driver calls, first to last. -/
def runOps (ops : List Op) (e : GameEngine) : GameEngine :=
  ops.foldl applyOp e

/-- The states handed to `changeState` / `pushState` by a sequence of
driver calls, in order. -/
def pushedStates : List Op → List StateId
  | [] => []
  | .changeState s :: ops => s :: pushedStates ops
  | .pushState s :: ops => s :: pushedStates ops
  | _ :: ops => pushedStates ops

/-- One call of the per-frame part of the engine. -/
inductive PhaseOp where
  | updateFPS (now : Nat)
  | handleEvent (events : List SDL_Event) (mouseX mouseY : Int)
  | update
  | draw
  | lateFPS
deriving Repr

/-- Run one per-frame call. -/
def applyPhase (e : GameEngine) : PhaseOp → GameEngine
  | .updateFPS now => e.updateFPS now
  | .handleEvent evs x y => e.handleEvent evs x y
  | .update => e.update
  | .draw => e.draw
  | .lateFPS => e.lateFPS

/-- Run a sequence of per-frame calls, first to last. -/
def runPhases (ops : List PhaseOp) (e : GameEngine) : GameEngine :=
  ops.foldl applyPhase e

/-- One frame with no pending OS event: `handleEvent(); update(); draw();`. -/
def frame (mouseX mouseY : Int) (e : GameEngine) : GameEngine :=
  (e.handleEvent [] mouseX mouseY).update.draw

/-- An engine object as `init("T", 800, 600, false, WINDOWED, 60, 1.0)`
leaves it when `SDL_GetTicks()` reads 0: empty stack, running, no camera,
nothing called yet; the members `init` does not set are given the values
below. -/
def engine0 : GameEngine :=
  { states := [], last := 0, _fps := 0, fps := 0, targetFrameTime := 16,
    windowState := .RUNNING, screenWidth := 800, screenHeight := 600,
    debugFPS := false, frameCounter := 0, mainCamera := none,
    mousePosX := 0, mousePosY := 0, trace := [] }

/-- The call `states.back()->h(...)` as a list: one call when the stack is
non-empty, none when it is empty. -/
def backCall (h : Hook) (states : List StateId) : List Effect :=
  match states.getLast? with
  | some t => [.hook h t]
  | none => []

/-- The FPS step as the specification words it: count the frame first,
then, past the window boundary, report the count, reset it to zero and
move the window start on by 1000. -/
def accountFpsClaimed (now : Nat) (e : GameEngine) : GameEngine :=
  let n := add32 e._fps 1
  if 1000 < sub32 now e.last then
    { e with fps := n, _fps := 0, last := add32 e.last 1000 }
  else { e with _fps := n }

/-- The calls of `draw` as the specification words them: viewport, clear,
enable blending, camera upload (only with a camera bound), `top.draw`,
disable blending. -/
def drawClaimed (e : GameEngine) : List Effect :=
  [.glViewport e.screenWidth e.screenHeight, .glClearColor, .glClear,
    .glEnableBlend, .glBlendFunc] ++
  (match e.mainCamera with
    | some _ => [.getShader, .setView, .setProjection]
    | none => []) ++
  backCall .draw e.states ++ [.glDisableBlend]

/-- Calls received by a state that is on the stack: `init` first, and
neither `init` nor `cleanup` after it. -/
def Live (l : List Hook) : Prop :=
  ∃ mid : List Hook, l = Hook.init :: mid ∧ Hook.init ∉ mid ∧ Hook.cleanup ∉ mid

/-- Calls received by a state that has left the stack: `init` first,
`cleanup` last, and neither of them in between. -/
def Done (l : List Hook) : Prop :=
  ∃ mid : List Hook, l = Hook.init :: (mid ++ [Hook.cleanup]) ∧
    Hook.init ∉ mid ∧ Hook.cleanup ∉ mid

/-- Invariant of the state stack `st` and trace `tr` once the states `P`
have been pushed: the stack holds pushed states without repetition, a state
on the stack is live, a pushed state off the stack is done, and a state
never pushed has received no call. -/
structure StackInv (P : List StateId) (st : List StateId) (tr : List Effect) : Prop where
  nodup : st.Nodup
  sub : ∀ s ∈ st, s ∈ P
  live : ∀ s ∈ st, Live (callsOn s tr)
  done : ∀ s ∈ P, s ∉ st → Done (callsOn s tr)
  fresh : ∀ s, s ∉ P → callsOn s tr = []

/-! ## Field lemmas for the building blocks -/

@[simp]
theorem emit_states (e : GameEngine) (x : Effect) : (e.emit x).states = e.states := rfl
@[simp]
theorem emit_trace (e : GameEngine) (x : Effect) : (e.emit x).trace = e.trace ++ [x] := rfl
@[simp]
theorem emit_windowState (e : GameEngine) (x : Effect) :
    (e.emit x).windowState = e.windowState := rfl
@[simp]
theorem emit_mainCamera (e : GameEngine) (x : Effect) :
    (e.emit x).mainCamera = e.mainCamera := rfl

@[simp]
theorem callBack_states (h : Hook) (e : GameEngine) :
    (callBack h e).states = e.states := by
  unfold callBack; cases e.states.getLast? <;> rfl

@[simp]
theorem callBack_windowState (h : Hook) (e : GameEngine) :
    (callBack h e).windowState = e.windowState := by
  unfold callBack; cases e.states.getLast? <;> rfl

theorem callBack_trace (h : Hook) (e : GameEngine) :
    (callBack h e).trace = e.trace ++ backCall h e.states := by
  unfold callBack backCall; cases e.states.getLast? <;> simp

theorem cleanupBack_states (e : GameEngine) :
    (cleanupBack e).states = e.states.dropLast := by
  unfold cleanupBack
  cases h : e.states.getLast? with
  | none => simp [List.getLast?_eq_none_iff.mp h]
  | some t => rfl

@[simp]
theorem cleanupBack_windowState (e : GameEngine) :
    (cleanupBack e).windowState = e.windowState := by
  unfold cleanupBack; cases e.states.getLast? <;> rfl

theorem cleanupBack_trace (e : GameEngine) :
    (cleanupBack e).trace = e.trace ++ backCall .cleanup e.states := by
  unfold cleanupBack backCall; cases e.states.getLast? <;> simp

@[simp]
theorem pushInit_states (s : StateId) (e : GameEngine) :
    (pushInit s e).states = e.states ++ [s] := by
  simp [pushInit]

@[simp]
theorem pushInit_windowState (s : StateId) (e : GameEngine) :
    (pushInit s e).windowState = e.windowState := by
  simp [pushInit]

@[simp]
theorem pushInit_trace (s : StateId) (e : GameEngine) :
    (pushInit s e).trace = e.trace ++ [.hook .init s] := by
  simp [pushInit, callBack_trace, backCall]

@[simp]
theorem backCall_nil (h : Hook) : backCall h [] = [] := rfl

@[simp]
theorem backCall_concat (h : Hook) (l : List StateId) (s : StateId) :
    backCall h (l ++ [s]) = [.hook h s] := by
  simp [backCall]

theorem backCall_of_getLast? {h : Hook} {l : List StateId} {t : StateId}
    (ht : l.getLast? = some t) : backCall h l = [.hook h t] := by
  simp [backCall, ht]

theorem hooksOf_append (a b : List Effect) : hooksOf (a ++ b) = hooksOf a ++ hooksOf b := by
  simp [hooksOf, List.filterMap_append]

theorem callsOn_append (s : StateId) (a b : List Effect) :
    callsOn s (a ++ b) = callsOn s a ++ callsOn s b := by
  simp [callsOn, hooksOf_append]

/-! ## pushState then popState -/

/-- C1. For every engine and every state `s`, `pushState(s); popState()`
leaves the stack as it was and emits exactly `top.pause` (only when the
stack was non-empty), `s.init`, `s.cleanup`, `top.resume` (only when the
stack was non-empty), in that order. From the empty stack,
`pushState(s); pushState(b); popState()` emits exactly
`s.init, s.pause, b.init, b.cleanup, s.resume` and leaves the stack `[s]`. -/
theorem pushState_popState (e : GameEngine) (s : StateId) :
    ((e.pushState s).popState).states = e.states ∧
    ((e.pushState s).popState).trace =
      e.trace ++ backCall .pause e.states ++ [.hook .init s, .hook .cleanup s]
        ++ backCall .resume e.states ∧
    (e.states = [] → ∀ b : StateId,
      (((e.pushState s).pushState b).popState).states = [s] ∧
      (((e.pushState s).pushState b).popState).trace =
        e.trace ++ [.hook .init s, .hook .pause s, .hook .init b, .hook .cleanup b,
          .hook .resume s]) := by
  refine ⟨?_, ?_, ?_⟩
  · simp [popState, pushState, cleanupBack_states]
  · simp [popState, pushState, cleanupBack_states, cleanupBack_trace, callBack_trace]
  · intro h0 b
    simp [popState, pushState, cleanupBack_states, cleanupBack_trace, callBack_trace, h0,
      backCall]

/-- Witness for C1 on the engine of scenario S2 with `A = 1`, `B = 2`. -/
theorem pushState_popState_witness :
    (((engine0.pushState 1).pushState 2).popState).states = [1] ∧
    (((engine0.pushState 1).pushState 2).popState).trace =
      engine0.trace ++ [.hook .init 1, .hook .pause 1, .hook .init 2, .hook .cleanup 2,
        .hook .resume 1] :=
  (pushState_popState engine0 1).2.2 rfl 2

/-! ## changeState twice -/

theorem callsOn_hook (s : StateId) (h : Hook) (t : StateId) :
    callsOn s [.hook h t] = if t = s then [h] else [] := by
  by_cases hts : t = s <;> simp [callsOn, hooksOf, hts]

@[simp]
theorem hooksOf_nil : hooksOf [] = [] := rfl

@[simp]
theorem hooksOf_cons_hook (h : Hook) (t : StateId) (l : List Effect) :
    hooksOf (.hook h t :: l) = (h, t) :: hooksOf l := rfl

@[simp]
theorem callsOn_nil (s : StateId) : callsOn s [] = [] := rfl

theorem callsOn_cons_hook (s : StateId) (h : Hook) (t : StateId) (l : List Effect) :
    callsOn s (.hook h t :: l) = (if t = s then [h] else []) ++ callsOn s l := by
  by_cases hts : t = s <;> simp [callsOn, hts]

theorem callsOn_backCall_ne (s : StateId) (h : Hook) (l : List StateId)
    (hs : l.getLast? ≠ some s) : callsOn s (backCall h l) = [] := by
  unfold backCall
  cases ht : l.getLast? with
  | none => rfl
  | some t =>
    have : t ≠ s := fun hc => hs (by rw [ht, hc])
    simp [callsOn_hook, this]

theorem changeState_states (s : StateId) (e : GameEngine) :
    (e.changeState s).states = e.states.dropLast ++ [s] := by
  simp [changeState, cleanupBack_states]

theorem changeState_trace (s : StateId) (e : GameEngine) :
    (e.changeState s).trace = e.trace ++ backCall .cleanup e.states ++ [.hook .init s] := by
  simp [changeState, cleanupBack_trace]

/-- C2. For every engine and states `a`, `b`: `changeState(a); changeState(b)`
ends with the stack of `changeState(b)` alone (the old stack with its top,
if any, replaced by `b`), and emits exactly: `cleanup` on the old top (only
when there was one), `a.init`, `a.cleanup`, `b.init`, in that order. A state
other than `a`, `b` and the old top receives no call; when `a`, `b` and the
old top are different states, `b` receives exactly `init`, `a` receives
exactly `init, cleanup`, and the old top receives exactly `cleanup`. -/
theorem changeState_changeState (e : GameEngine) (a b : StateId) :
    ((e.changeState a).changeState b).states = (e.changeState b).states ∧
    (e.changeState b).states = e.states.dropLast ++ [b] ∧
    ((e.changeState a).changeState b).trace =
      e.trace ++ backCall .cleanup e.states ++
        [.hook .init a, .hook .cleanup a, .hook .init b] ∧
    (∀ x : StateId, x ≠ a → x ≠ b → e.states.getLast? ≠ some x →
      callsOn x ((e.changeState a).changeState b).trace = callsOn x e.trace) ∧
    (a ≠ b → e.states.getLast? ≠ some a → e.states.getLast? ≠ some b →
      callsOn b ((e.changeState a).changeState b).trace = callsOn b e.trace ++ [.init] ∧
      callsOn a ((e.changeState a).changeState b).trace =
        callsOn a e.trace ++ [.init, .cleanup] ∧
      ∀ t : StateId, e.states.getLast? = some t →
        callsOn t ((e.changeState a).changeState b).trace =
          callsOn t e.trace ++ [.cleanup]) := by
  have htr : ((e.changeState a).changeState b).trace =
      e.trace ++ backCall .cleanup e.states ++
        [.hook .init a, .hook .cleanup a, .hook .init b] := by
    simp [changeState_trace, changeState_states]
  refine ⟨?_, changeState_states b e, htr, ?_, ?_⟩
  · simp [changeState_states]
  · intro x hxa hxb hxt
    rw [htr]
    have h1 : ¬ a = x := fun h => hxa h.symm
    have h2 : ¬ b = x := fun h => hxb h.symm
    simp [callsOn_append, callsOn_backCall_ne x .cleanup _ hxt, callsOn_cons_hook, h1, h2]
  · intro hab hta htb
    rw [htr]
    have hba : ¬ b = a := fun h => hab h.symm
    refine ⟨?_, ?_, ?_⟩
    · simp [callsOn_append, callsOn_backCall_ne b .cleanup _ htb, callsOn_cons_hook, hab]
    · simp [callsOn_append, callsOn_backCall_ne a .cleanup _ hta, callsOn_cons_hook, hba]
    · intro t ht
      have h1 : ¬ a = t := fun h => hta (by rw [ht, h])
      have h2 : ¬ b = t := fun h => htb (by rw [ht, h])
      simp [callsOn_append, backCall_of_getLast? ht, callsOn_cons_hook, h1, h2]

/-- Witness for C2: stack `[7]`, `a = 1`, `b = 2`. -/
theorem changeState_changeState_witness :
    callsOn 2 (((engine0.pushState 7).changeState 1).changeState 2).trace =
        callsOn 2 (engine0.pushState 7).trace ++ [.init] ∧
    callsOn 1 (((engine0.pushState 7).changeState 1).changeState 2).trace =
        callsOn 1 (engine0.pushState 7).trace ++ [.init, .cleanup] ∧
    ∀ t : StateId, (engine0.pushState 7).states.getLast? = some t →
      callsOn t (((engine0.pushState 7).changeState 1).changeState 2).trace =
        callsOn t (engine0.pushState 7).trace ++ [.cleanup] :=
  (changeState_changeState (engine0.pushState 7) 1 2).2.2.2.2
    (by decide) (by decide) (by decide)

/-! ## One frame -/

theorem hooksOf_backCall (h : Hook) (l : List StateId) :
    hooksOf (backCall h l) = match l.getLast? with
      | some t => [(h, t)]
      | none => [] := by
  unfold backCall; cases l.getLast? <;> rfl

theorem pollLoop_nil (e : GameEngine) : pollLoop [] e = e := rfl

theorem handleEvent_states (events : List SDL_Event) (x y : Int) (e : GameEngine) :
    (e.handleEvent events x y).states = e.states := by
  have hp : ∀ (evs : List SDL_Event) (e : GameEngine), (pollLoop evs e).states = e.states := by
    intro evs
    induction evs with
    | nil => intro e; rfl
    | cons ev evs ih =>
      intro e
      show (pollLoop evs (switchEvent e ev)).states = e.states
      rw [ih]
      unfold switchEvent handleKeyEvent
      split_ifs <;> rfl
  simp [handleEvent, hp]

theorem pollLoop_trace (evs : List SDL_Event) (e : GameEngine) :
    (pollLoop evs e).trace = e.trace := by
  induction evs generalizing e with
  | nil => rfl
  | cons ev evs ih =>
    show (pollLoop evs (switchEvent e ev)).trace = e.trace
    rw [ih]
    unfold switchEvent handleKeyEvent
    split_ifs <;> rfl

theorem pollLoop_states (evs : List SDL_Event) (e : GameEngine) :
    (pollLoop evs e).states = e.states := by
  induction evs generalizing e with
  | nil => rfl
  | cons ev evs ih =>
    show (pollLoop evs (switchEvent e ev)).states = e.states
    rw [ih]
    unfold switchEvent handleKeyEvent
    split_ifs <;> rfl

theorem handleEvent_trace (events : List SDL_Event) (x y : Int) (e : GameEngine) :
    (e.handleEvent events x y).trace = e.trace ++ backCall .handleEvents e.states := by
  simp [handleEvent, callBack_trace, pollLoop_trace, pollLoop_states]

theorem update_states (e : GameEngine) : e.update.states = e.states := by
  simp [update]

theorem update_trace (e : GameEngine) :
    e.update.trace = e.trace ++ backCall .update e.states := by
  simp [update, callBack_trace]

theorem draw_states (e : GameEngine) : e.draw.states = e.states := by
  unfold draw
  cases h : e.mainCamera <;> simp [h]

/-- The calls `draw` makes before it reaches the state stack. -/
theorem draw_trace (e : GameEngine) :
    e.draw.trace =
      e.trace ++ [.glViewport e.screenWidth e.screenHeight, .glClearColor, .glClear,
        .glEnableBlend, .glBlendFunc] ++
      (match e.mainCamera with
        | some _ => [.getShader, .setView, .setProjection]
        | none => []) ++
      [.boxRender, .glDisableBlend] ++ backCall .draw e.states := by
  unfold draw
  cases h : e.mainCamera <;> simp [h, callBack_trace]

theorem hooksOf_draw (e : GameEngine) :
    hooksOf e.draw.trace = hooksOf e.trace ++ hooksOf (backCall .draw e.states) := by
  rw [draw_trace]
  cases e.mainCamera <;> simp [hooksOf_append, hooksOf]

theorem draw_windowState (e : GameEngine) : e.draw.windowState = e.windowState := by
  unfold draw
  cases h : e.mainCamera <;> simp [h]

theorem update_windowState (e : GameEngine) : e.update.windowState = e.windowState := by
  simp [update]

theorem handleEvent_windowState (events : List SDL_Event) (x y : Int) (e : GameEngine) :
    (e.handleEvent events x y).windowState = (pollLoop events e).windowState := by
  simp [handleEvent]

theorem frame_states (x y : Int) (e : GameEngine) : (frame x y e).states = e.states := by
  simp [frame, draw_states, update_states, handleEvent_states]

theorem hooksOf_frame (x y : Int) (e : GameEngine) :
    hooksOf (frame x y e).trace = hooksOf e.trace ++
      (match e.states.getLast? with
        | some t => [(.handleEvents, t), (.update, t), (.draw, t)]
        | none => []) := by
  simp only [frame, hooksOf_draw, update_states, handleEvent_states, update_trace,
    handleEvent_trace, hooksOf_append, hooksOf_backCall]
  cases e.states.getLast? <;> simp

/-- C4. A frame `handleEvent(); update(); draw()` with no pending OS event
leaves the stack and the run-state unchanged. With a non-empty stack whose
last element is `top`, the hooks it invokes are exactly `top.handleEvents`,
`top.update`, `top.draw`, in that order, and a state other than `top`
receives no call; with an empty stack it invokes no hook. From the empty
stack, `pushState(A)` and three such frames invoke `A.init` and then three
times `A.handleEvents, A.update, A.draw`. -/
theorem frame_hooks (e : GameEngine) (x y : Int) :
    (frame x y e).states = e.states ∧
    (frame x y e).windowState = e.windowState ∧
    hooksOf (frame x y e).trace = hooksOf e.trace ++
      (match e.states.getLast? with
        | some t => [(.handleEvents, t), (.update, t), (.draw, t)]
        | none => []) ∧
    (∀ s : StateId, e.states.getLast? ≠ some s →
      callsOn s (frame x y e).trace = callsOn s e.trace) ∧
    (e.states = [] → ∀ (A : StateId) (x2 y2 x3 y3 : Int),
      hooksOf (frame x3 y3 (frame x2 y2 (frame x y (e.pushState A)))).trace =
        hooksOf e.trace ++
          [(.init, A), (.handleEvents, A), (.update, A), (.draw, A),
            (.handleEvents, A), (.update, A), (.draw, A),
            (.handleEvents, A), (.update, A), (.draw, A)]) := by
  refine ⟨frame_states x y e, ?_, hooksOf_frame x y e, ?_, ?_⟩
  · simp [frame, draw_windowState, update_windowState, handleEvent_windowState, pollLoop_nil]
  · intro s hs
    unfold callsOn
    rw [hooksOf_frame]
    cases ht : e.states.getLast? with
    | none => simp
    | some t =>
      have : ¬ t = s := fun hc => hs (by rw [ht, hc])
      simp [this]
  · intro h0 A x2 y2 x3 y3
    simp [hooksOf_frame, frame_states, pushState, h0, callBack_trace, hooksOf_append]

/-- Witness for C4: scenario S1 with `A = 1`. -/
theorem frame_hooks_witness :
    hooksOf (frame 0 0 (frame 0 0 (frame 0 0 (engine0.pushState 1)))).trace =
      hooksOf engine0.trace ++
        [(.init, 1), (.handleEvents, 1), (.update, 1), (.draw, 1),
          (.handleEvents, 1), (.update, 1), (.draw, 1),
          (.handleEvents, 1), (.update, 1), (.draw, 1)] :=
  (frame_hooks engine0 0 0).2.2.2.2 rfl 1 0 0 0 0

/-! ## cleanup -/

theorem cleanupLoop_eq (states : List StateId) (tr : List Effect) :
    cleanupLoop states tr = ([], tr ++ states.reverse.map (Effect.hook .cleanup)) := by
  induction states using List.reverseRecOn generalizing tr with
  | nil => rw [cleanupLoop]; simp
  | append_singleton l a ih =>
    rw [cleanupLoop]
    simp [ih]

theorem callsOn_map_cleanup (s : StateId) (l : List StateId) :
    callsOn s (l.map (Effect.hook .cleanup)) = List.replicate (l.count s) Hook.cleanup := by
  induction l with
  | nil => rfl
  | cons t l ih =>
    rw [List.map_cons, callsOn_cons_hook, ih, List.count_cons]
    by_cases hts : t = s
    · simp [hts, List.replicate_succ]
    · simp [hts]

theorem cleanup_trace (e : GameEngine) :
    e.cleanup.trace =
      e.trace ++ e.states.reverse.map (Effect.hook .cleanup) ++ [.deleteInput, .sdlQuit] := by
  simp [cleanup, cleanupLoop_eq]

/-- C10. For every engine, `cleanup()` returns (it is a total function),
leaves the stack empty, and the hooks it invokes are exactly one `cleanup`
per stack entry, from the last pushed to the first; each state receives
as many `cleanup` calls as it has entries on the stack and no other call.
On an empty stack it invokes no hook. -/
theorem cleanup_drains (e : GameEngine) :
    e.cleanup.states = [] ∧
    e.cleanup.trace =
      e.trace ++ e.states.reverse.map (Effect.hook .cleanup) ++ [.deleteInput, .sdlQuit] ∧
    hooksOf e.cleanup.trace =
      hooksOf e.trace ++ e.states.reverse.map (fun s => (Hook.cleanup, s)) ∧
    (∀ s : StateId, callsOn s e.cleanup.trace =
      callsOn s e.trace ++ List.replicate (e.states.count s) Hook.cleanup) ∧
    (e.states = [] → hooksOf e.cleanup.trace = hooksOf e.trace) := by
  have htr := cleanup_trace e
  have hmap : ∀ l : List StateId,
      hooksOf (l.map (Effect.hook .cleanup)) = l.map (fun s => (Hook.cleanup, s)) := by
    intro l
    induction l with
    | nil => rfl
    | cons t l ih => simp [ih]
  have hh : hooksOf e.cleanup.trace =
      hooksOf e.trace ++ e.states.reverse.map (fun s => (Hook.cleanup, s)) := by
    rw [htr, hooksOf_append, hooksOf_append, hmap]
    simp [hooksOf]
  refine ⟨by simp [cleanup, cleanupLoop_eq], htr, hh, ?_, ?_⟩
  · intro s
    rw [htr, callsOn_append, callsOn_append, callsOn_map_cleanup, List.count_reverse]
    simp [callsOn, hooksOf]
  · intro h0
    rw [hh, h0]
    simp

/-- Witness for C10 on the empty stack of `engine0`. -/
theorem cleanup_drains_witness : hooksOf engine0.cleanup.trace = hooksOf engine0.trace :=
  (cleanup_drains engine0).2.2.2.2 rfl

/-! ## Event intake and the run-state -/

/-- C5 (evaluation of the code). With the engine running and a single
pending `SDL_KEYDOWN` of the space key (code 32), `handleEvent` leaves the
run-state `EXIT`: the key cases of the `switch` run on into the statement
of `case SDL_QUIT`. -/
theorem handleEvent_keydown_exits :
    engine0.isRunning = true ∧
    (engine0.handleEvent [⟨SDL_KEYDOWN, 32⟩] 0 0).windowState = .EXIT ∧
    (engine0.handleEvent [⟨SDL_KEYDOWN, 32⟩] 0 0).isRunning = false := by
  decide

theorem switchEvent_exit_of_exit (e : GameEngine) (evt : SDL_Event)
    (h : e.windowState = .EXIT) : (switchEvent e evt).windowState = .EXIT := by
  unfold switchEvent
  split_ifs <;> first | rfl | exact h

theorem pollLoop_exit_of_exit (evs : List SDL_Event) (e : GameEngine)
    (h : e.windowState = .EXIT) : (pollLoop evs e).windowState = .EXIT := by
  induction evs generalizing e with
  | nil => exact h
  | cons ev evs ih => exact ih _ (switchEvent_exit_of_exit e ev h)

theorem switchEvent_exit_of_key (e : GameEngine) (evt : SDL_Event)
    (h : evt.type = SDL_KEYDOWN ∨ evt.type = SDL_KEYUP ∨ evt.type = SDL_QUIT) :
    (switchEvent e evt).windowState = .EXIT := by
  unfold switchEvent
  split_ifs with h1 h2
  · rfl
  · rfl
  · rcases h with h | h | h
    · exact absurd (Or.inl h) h1
    · exact absurd (Or.inr h) h1
    · exact absurd h h2

theorem pollLoop_exit_of_mem (evs : List SDL_Event) (e : GameEngine) (ev : SDL_Event)
    (hmem : ev ∈ evs)
    (h : ev.type = SDL_KEYDOWN ∨ ev.type = SDL_KEYUP ∨ ev.type = SDL_QUIT) :
    (pollLoop evs e).windowState = .EXIT := by
  induction evs generalizing e with
  | nil => cases hmem
  | cons x xs ih =>
    rcases List.mem_cons.mp hmem with hx | hx
    · subst hx
      exact pollLoop_exit_of_exit xs _ (switchEvent_exit_of_key e ev h)
    · exact ih _ hx

theorem getFPS_windowState (now : Nat) (e : GameEngine) :
    (e.getFPS now).windowState = e.windowState := by
  unfold getFPS
  split_ifs <;> rfl

theorem lateFPS_windowState (e : GameEngine) : e.lateFPS.windowState = e.windowState := by
  unfold lateFPS limitFPS
  dsimp only
  split_ifs <;> rfl

theorem applyPhase_exit (e : GameEngine) (op : PhaseOp) (h : e.windowState = .EXIT) :
    (applyPhase e op).windowState = .EXIT := by
  cases op with
  | updateFPS now => simpa [applyPhase, updateFPS, getFPS_windowState] using h
  | handleEvent evs x y =>
    simpa [applyPhase, handleEvent_windowState] using pollLoop_exit_of_exit evs e h
  | update => simpa [applyPhase, update_windowState] using h
  | draw => simpa [applyPhase, draw_windowState] using h
  | lateFPS => simpa [applyPhase, lateFPS_windowState] using h

theorem runPhases_exit (ops : List PhaseOp) (e : GameEngine) (h : e.windowState = .EXIT) :
    (runPhases ops e).windowState = .EXIT := by
  induction ops generalizing e with
  | nil => exact h
  | cons op ops ih => exact ih _ (applyPhase_exit e op h)

/-- C6. For every engine and every queue of pending events that holds an
`SDL_QUIT` event or an `SDL_KEYUP` event with key code `SDLK_ESCAPE`
(anywhere in the queue), after `handleEvent` the run-state is `EXIT` and
`isRunning()` is false, and it stays `EXIT` through every later sequence of
`updateFPS`, `handleEvent`, `update`, `draw`, `lateFPS` calls. -/
theorem handleEvent_quit (e : GameEngine) (events : List SDL_Event) (x y : Int)
    (hq : ∃ ev ∈ events, ev.type = SDL_QUIT ∨ (ev.type = SDL_KEYUP ∧ ev.sym = SDLK_ESCAPE)) :
    (e.handleEvent events x y).windowState = .EXIT ∧
    (e.handleEvent events x y).isRunning = false ∧
    ∀ ops : List PhaseOp,
      (runPhases ops (e.handleEvent events x y)).windowState = .EXIT ∧
      (runPhases ops (e.handleEvent events x y)).isRunning = false := by
  obtain ⟨ev, hmem, hev⟩ := hq
  have hx : (e.handleEvent events x y).windowState = .EXIT := by
    rw [handleEvent_windowState]
    refine pollLoop_exit_of_mem events e ev hmem ?_
    rcases hev with h | ⟨h, _⟩
    · exact Or.inr (Or.inr h)
    · exact Or.inr (Or.inl h)
  refine ⟨hx, by simp [isRunning, hx], fun ops => ?_⟩
  have h2 := runPhases_exit ops _ hx
  exact ⟨h2, by simp [isRunning, h2]⟩

/-- Witness for C6: scenario S4, a single `SDL_KEYUP` of `SDLK_ESCAPE`. -/
theorem handleEvent_quit_witness :
    (engine0.handleEvent [⟨SDL_KEYUP, SDLK_ESCAPE⟩] 0 0).windowState = .EXIT ∧
    (engine0.handleEvent [⟨SDL_KEYUP, SDLK_ESCAPE⟩] 0 0).isRunning = false ∧
    ∀ ops : List PhaseOp,
      (runPhases ops (engine0.handleEvent [⟨SDL_KEYUP, SDLK_ESCAPE⟩] 0 0)).windowState
        = .EXIT ∧
      (runPhases ops (engine0.handleEvent [⟨SDL_KEYUP, SDLK_ESCAPE⟩] 0 0)).isRunning
        = false :=
  handleEvent_quit engine0 [⟨SDL_KEYUP, SDLK_ESCAPE⟩] 0 0
    ⟨⟨SDL_KEYUP, SDLK_ESCAPE⟩, List.mem_singleton.mpr rfl, Or.inr ⟨rfl, rfl⟩⟩

/-! ## Mouse position -/

theorem f32Round_of_lt (n : Int) (h : n.natAbs < 2 ^ 24) : f32Round n = n := by
  unfold f32Round
  exact if_pos h

/-- Beyond 24 significant bits the conversion rounds: to the nearest
representable value, ties to the even significand. -/
theorem f32Round_samples :
    f32Round 16777216 = 16777216 ∧ f32Round 16777217 = 16777216 ∧
    f32Round 16777219 = 16777220 ∧ f32Round (-16777219) = -16777220 ∧
    f32Round 4294967295 = 4294967296 := by
  decide

theorem pollLoop_screenHeight (evs : List SDL_Event) (e : GameEngine) :
    (pollLoop evs e).screenHeight = e.screenHeight := by
  induction evs generalizing e with
  | nil => rfl
  | cons ev evs ih =>
    show (pollLoop evs (switchEvent e ev)).screenHeight = e.screenHeight
    rw [ih]
    unfold switchEvent handleKeyEvent
    split_ifs <;> rfl

theorem callBack_mousePos (h : Hook) (e : GameEngine) :
    (callBack h e).getMousePos = e.getMousePos := by
  unfold callBack; cases e.states.getLast? <;> rfl

/-- C7. For every engine whose screen height `h` is below `2^24`, every
queue of pending events and every raw mouse position `(xRaw, yRaw)` with
`0 ≤ xRaw, yRaw < 2^24`, after `handleEvent` the position returned by
`getMousePos()` has `x = xRaw` and `y = h - yRaw`: every conversion to
`float` on the way is exact. -/
theorem handleEvent_mousePos (e : GameEngine) (events : List SDL_Event) (xRaw yRaw : Int)
    (hh : e.screenHeight < 2 ^ 24)
    (hx0 : 0 ≤ xRaw) (hx : xRaw < 2 ^ 24) (hy0 : 0 ≤ yRaw) (hy : yRaw < 2 ^ 24) :
    (e.handleEvent events xRaw yRaw).getMousePos = (xRaw, (e.screenHeight : Int) - yRaw) := by
  have h1 : f32Round xRaw = xRaw := f32Round_of_lt _ (by omega)
  have h2 : f32Round yRaw = yRaw := f32Round_of_lt _ (by omega)
  have h3 : f32Round (e.screenHeight : Int) = e.screenHeight := f32Round_of_lt _ (by omega)
  have h4 : f32Round ((e.screenHeight : Int) - yRaw) = (e.screenHeight : Int) - yRaw :=
    f32Round_of_lt _ (by omega)
  unfold handleEvent
  rw [callBack_mousePos]
  simp [getMousePos, pollLoop_screenHeight, h1, h2, h3, h4]

/-- Witness for C7: scenario S5, raw `(300, 100)` on the 800x600 window of
`engine0` is reported as `(300, 500)`. -/
theorem handleEvent_mousePos_witness :
    (engine0.handleEvent [] 300 100).getMousePos = (300, 500) :=
  handleEvent_mousePos engine0 [] 300 100 (by decide) (by decide) (by decide) (by decide)
    (by decide)

/-! ## FPS accounting -/

/-- C8 (counterexample). With 5 frames counted, window start 0 and the
clock at 1001, the code reports 5 and leaves the counter at 1, where the
step as claimed reports 6 and leaves the counter at 0. -/
theorem getFPS_not_claimed :
    (({ engine0 with _fps := 5 }).updateFPS 1001).fps = 5 ∧
    (accountFpsClaimed 1001 { engine0 with _fps := 5 }).fps = 6 ∧
    (({ engine0 with _fps := 5 }).updateFPS 1001)._fps = 1 ∧
    (accountFpsClaimed 1001 { engine0 with _fps := 5 })._fps = 0 := by
  decide

/-- C8 (amended). One `updateFPS()` step at clock value `now`, in 32-bit
unsigned arithmetic: when `now - last > 1000` it sets `fps` to the value
`_fps` had before the step, leaves `_fps` at 1 and moves `last` on by
exactly 1000; otherwise `fps` and `last` are unchanged and `_fps` has grown
by 1. -/
theorem updateFPS_step (e : GameEngine) (now : Nat) :
    (1000 < sub32 now e.last →
      (e.updateFPS now).fps = e._fps ∧ (e.updateFPS now)._fps = 1 ∧
      (e.updateFPS now).last = add32 e.last 1000) ∧
    (sub32 now e.last ≤ 1000 →
      (e.updateFPS now).fps = e.fps ∧ (e.updateFPS now).last = e.last ∧
      (e.updateFPS now)._fps = add32 e._fps 1) := by
  constructor
  · intro h
    simp [updateFPS, getFPS, h, add32, U32]
  · intro h
    have h1 : ¬ 1000 < sub32 now e.last := by omega
    simp [updateFPS, getFPS, h1]

/-- Witness for C8: both branches on `engine0` with 5 frames counted. -/
theorem updateFPS_step_witness :
    ((({ engine0 with _fps := 5 }).updateFPS 1001).fps = 5 ∧
      (({ engine0 with _fps := 5 }).updateFPS 1001)._fps = 1 ∧
      (({ engine0 with _fps := 5 }).updateFPS 1001).last = add32 0 1000) ∧
    ((({ engine0 with _fps := 5 }).updateFPS 1000).fps = 0 ∧
      (({ engine0 with _fps := 5 }).updateFPS 1000).last = 0 ∧
      (({ engine0 with _fps := 5 }).updateFPS 1000)._fps = add32 5 1) :=
  ⟨(updateFPS_step { engine0 with _fps := 5 } 1001).1 (by decide),
   (updateFPS_step { engine0 with _fps := 5 } 1000).2 (by decide)⟩

/-! ## draw -/

/-- C9 (counterexample). On the stack `[1]` with no camera bound, `draw`
emits viewport, clear colour, clear, enable blend, blend function, the
engine's box sprite, disable blend and only then `draw` on state 1; this is
not the claimed sequence, in which the state draws before blending is
disabled. -/
theorem draw_not_claimed :
    (engine0.pushState 1).draw.trace =
      (engine0.pushState 1).trace ++
        [.glViewport 800 600, .glClearColor, .glClear, .glEnableBlend, .glBlendFunc,
          .boxRender, .glDisableBlend, .hook .draw 1] ∧
    (engine0.pushState 1).draw.trace ≠
      (engine0.pushState 1).trace ++ drawClaimed (engine0.pushState 1) := by
  decide

/-- C9 (amended). For every engine with a non-empty stack whose last
element is `top`, the calls emitted by `draw()` are, in order: set
viewport, set clear colour, clear the colour buffer, enable blending, set
the blend function, the camera upload (only with a camera bound), render
the engine's box sprite, disable blending, `top.draw`; the stack is
unchanged. -/
theorem draw_sequence (e : GameEngine) (top : StateId)
    (ht : e.states.getLast? = some top) :
    e.draw.states = e.states ∧
    e.draw.trace =
      e.trace ++ [.glViewport e.screenWidth e.screenHeight, .glClearColor, .glClear,
        .glEnableBlend, .glBlendFunc] ++
      (match e.mainCamera with
        | some _ => [.getShader, .setView, .setProjection]
        | none => []) ++
      [.boxRender, .glDisableBlend, .hook .draw top] := by
  refine ⟨draw_states e, ?_⟩
  rw [draw_trace, backCall_of_getLast? ht]
  simp

/-- Witness for C9 (amended) on the stack `[1]`. -/
theorem draw_sequence_witness :
    (engine0.pushState 1).draw.states = (engine0.pushState 1).states ∧
    (engine0.pushState 1).draw.trace =
      (engine0.pushState 1).trace ++
        [.glViewport (engine0.pushState 1).screenWidth (engine0.pushState 1).screenHeight,
          .glClearColor, .glClear, .glEnableBlend, .glBlendFunc] ++
      (match (engine0.pushState 1).mainCamera with
        | some _ => [.getShader, .setView, .setProjection]
        | none => []) ++
      [.boxRender, .glDisableBlend, .hook .draw 1] :=
  draw_sequence (engine0.pushState 1) 1 (by decide)

/-! ## Lifecycle of a pushed state -/

theorem Live.snoc {l : List Hook} (hl : Live l) (h : Hook)
    (h1 : h ≠ .init) (h2 : h ≠ .cleanup) : Live (l ++ [h]) := by
  obtain ⟨mid, rfl, hi, hc⟩ := hl
  refine ⟨mid ++ [h], by simp, ?_, ?_⟩
  · simp only [List.mem_append, List.mem_singleton, not_or]
    exact ⟨hi, fun hc => h1 hc.symm⟩
  · simp only [List.mem_append, List.mem_singleton, not_or]
    exact ⟨hc, fun hc => h2 hc.symm⟩

theorem Live.finish {l : List Hook} (hl : Live l) : Done (l ++ [.cleanup]) := by
  obtain ⟨mid, rfl, hi, hc⟩ := hl
  exact ⟨mid, by simp, hi, hc⟩

theorem Done.summary {l : List Hook} (hl : Done l) :
    l.head? = some .init ∧ l.count .init = 1 ∧ l.count .cleanup = 1 ∧
      l.getLast? = some .cleanup := by
  obtain ⟨mid, rfl, hi, hc⟩ := hl
  refine ⟨rfl, ?_, ?_, ?_⟩
  · have : mid.count Hook.init = 0 := List.count_eq_zero.mpr hi
    simp [List.count_cons, this]
  · have : mid.count Hook.cleanup = 0 := List.count_eq_zero.mpr hc
    simp [List.count_cons, this]
  · rw [← List.cons_append, List.getLast?_concat]

theorem callsOn_snoc_hook (s : StateId) (tr : List Effect) (h : Hook) (t : StateId) :
    callsOn s (tr ++ [.hook h t]) = callsOn s tr ++ (if t = s then [h] else []) := by
  rw [callsOn_append, callsOn_hook]

theorem callsOn_append_of_hooksOf_nil (s : StateId) (tr ext : List Effect)
    (h : hooksOf ext = []) : callsOn s (tr ++ ext) = callsOn s tr := by
  simp [callsOn, hooksOf_append, h]

theorem StackInv.init_state : ∀ tr : List Effect, hooksOf tr = [] → StackInv [] [] tr := by
  intro tr h
  refine ⟨List.nodup_nil, ?_, ?_, ?_, ?_⟩
  · intro s hs; cases hs
  · intro s hs; cases hs
  · intro s hs; cases hs
  · intro s _; simp [callsOn, h]

theorem StackInv.quiet {P st : List StateId} {tr : List Effect} (hI : StackInv P st tr)
    (ext : List Effect) (h : hooksOf ext = []) : StackInv P st (tr ++ ext) := by
  refine ⟨hI.nodup, hI.sub, ?_, ?_, ?_⟩
  · intro s hs; rw [callsOn_append_of_hooksOf_nil s tr ext h]; exact hI.live s hs
  · intro s hs hn; rw [callsOn_append_of_hooksOf_nil s tr ext h]; exact hI.done s hs hn
  · intro s hs; rw [callsOn_append_of_hooksOf_nil s tr ext h]; exact hI.fresh s hs

theorem StackInv.hookBack {P l : List StateId} {t : StateId} {tr : List Effect}
    (hI : StackInv P (l ++ [t]) tr) (h : Hook) (h1 : h ≠ .init) (h2 : h ≠ .cleanup) :
    StackInv P (l ++ [t]) (tr ++ [.hook h t]) := by
  have htmem : t ∈ l ++ [t] := by simp
  refine ⟨hI.nodup, hI.sub, ?_, ?_, ?_⟩
  · intro s hs
    rw [callsOn_snoc_hook]
    by_cases hts : t = s
    · rw [if_pos hts]; exact (hI.live s hs).snoc h h1 h2
    · rw [if_neg hts, List.append_nil]; exact hI.live s hs
  · intro s hs hn
    have hts : ¬ t = s := fun hc => hn (hc ▸ htmem)
    rw [callsOn_snoc_hook, if_neg hts, List.append_nil]
    exact hI.done s hs hn
  · intro s hs
    have hts : ¬ t = s := fun hc => hs (hc ▸ hI.sub t htmem)
    rw [callsOn_snoc_hook, if_neg hts, List.append_nil]
    exact hI.fresh s hs

theorem StackInv.popBack {P l : List StateId} {t : StateId} {tr : List Effect}
    (hI : StackInv P (l ++ [t]) tr) : StackInv P l (tr ++ [.hook .cleanup t]) := by
  have htmem : t ∈ l ++ [t] := by simp
  have hnd := hI.nodup
  rw [List.nodup_append] at hnd
  obtain ⟨hl, _, hdisj⟩ := hnd
  have htl : t ∉ l := fun hc => hdisj hc (List.mem_singleton.mpr rfl)
  refine ⟨hl, fun s hs => hI.sub s (List.mem_append_left _ hs), ?_, ?_, ?_⟩
  · intro s hs
    have hts : ¬ t = s := fun hc => htl (hc ▸ hs)
    rw [callsOn_snoc_hook, if_neg hts, List.append_nil]
    exact hI.live s (List.mem_append_left _ hs)
  · intro s hs hn
    rw [callsOn_snoc_hook]
    by_cases hts : t = s
    · rw [if_pos hts]
      exact (hI.live s (hts ▸ htmem)).finish
    · rw [if_neg hts, List.append_nil]
      refine hI.done s hs ?_
      intro hc
      rcases List.mem_append.mp hc with h | h
      · exact hn h
      · exact hts (List.mem_singleton.mp h).symm
  · intro s hs
    have hts : ¬ t = s := fun hc => hs (hc ▸ hI.sub t htmem)
    rw [callsOn_snoc_hook, if_neg hts, List.append_nil]
    exact hI.fresh s hs

theorem StackInv.push {P st : List StateId} {tr : List Effect} (hI : StackInv P st tr)
    (s0 : StateId) (hs0 : s0 ∉ P) :
    StackInv (P ++ [s0]) (st ++ [s0]) (tr ++ [.hook .init s0]) := by
  have hs0st : s0 ∉ st := fun hc => hs0 (hI.sub s0 hc)
  refine ⟨?_, ?_, ?_, ?_, ?_⟩
  · rw [List.nodup_append]
    refine ⟨hI.nodup, List.nodup_singleton s0, ?_⟩
    intro a ha hb
    exact hs0st ((List.mem_singleton.mp hb) ▸ ha)
  · intro s hs
    rcases List.mem_append.mp hs with h | h
    · exact List.mem_append_left _ (hI.sub s h)
    · exact List.mem_append_right _ h
  · intro s hs
    rw [callsOn_snoc_hook]
    rcases List.mem_append.mp hs with h | h
    · have hts : ¬ s0 = s := fun hc => hs0st (hc ▸ h)
      rw [if_neg hts, List.append_nil]
      exact hI.live s h
    · have hts : s0 = s := (List.mem_singleton.mp h).symm
      rw [if_pos hts, hI.fresh s (hts ▸ hs0)]
      exact ⟨[], rfl, by simp, by simp⟩
  · intro s hs hn
    have hts : ¬ s0 = s := fun hc => hn (List.mem_append_right _ (List.mem_singleton.mpr hc.symm))
    rw [callsOn_snoc_hook, if_neg hts, List.append_nil]
    rcases List.mem_append.mp hs with h | h
    · exact hI.done s h (fun hc => hn (List.mem_append_left _ hc))
    · exact absurd (List.mem_singleton.mp h).symm hts
  · intro s hs
    have hts : ¬ s0 = s := fun hc => hs (List.mem_append_right _ (List.mem_singleton.mpr hc.symm))
    rw [callsOn_snoc_hook, if_neg hts, List.append_nil]
    exact hI.fresh s (fun hc => hs (List.mem_append_left _ hc))

/-- The statement `if (!states.empty()) states.back()->h(this);` keeps the
invariant for a hook other than `init` and `cleanup`. -/
theorem StackInv.afterBackCall {P st : List StateId} {tr : List Effect} (hI : StackInv P st tr)
    (h : Hook) (h1 : h ≠ .init) (h2 : h ≠ .cleanup) :
    StackInv P st (tr ++ GameEngineSpec.backCall h st) := by
  cases ht : st.getLast? with
  | none => simpa [GameEngineSpec.backCall, ht] using hI
  | some t =>
    obtain ⟨l, rfl⟩ := List.getLast?_eq_some_iff.mp ht
    rw [backCall_concat]
    exact hI.hookBack h h1 h2

/-- The statement `if (!states.empty()) { states.back()->cleanup(this);
states.pop_back(); }` keeps the invariant. -/
theorem StackInv.afterCleanupBack {P st : List StateId} {tr : List Effect}
    (hI : StackInv P st tr) :
    StackInv P st.dropLast (tr ++ GameEngineSpec.backCall .cleanup st) := by
  cases ht : st.getLast? with
  | none =>
    have : st = [] := List.getLast?_eq_none_iff.mp ht
    subst this
    simpa using hI
  | some t =>
    obtain ⟨l, rfl⟩ := List.getLast?_eq_some_iff.mp ht
    rw [backCall_concat, List.dropLast_concat]
    exact hI.popBack

theorem StackInv.drain {P st : List StateId} {tr : List Effect} (hI : StackInv P st tr) :
    StackInv P [] (tr ++ st.reverse.map (Effect.hook .cleanup)) := by
  induction st using List.reverseRecOn generalizing tr with
  | nil => simpa using hI
  | append_singleton l a ih =>
    have h := ih hI.popBack
    simpa using h

theorem pushedStates_cons (op : Op) (ops : List Op) :
    pushedStates (op :: ops) = pushedStates [op] ++ pushedStates ops := by
  cases op <;> simp [pushedStates]

theorem popState_states (e : GameEngine) : e.popState.states = e.states.dropLast := by
  simp [popState, cleanupBack_states]

theorem popState_trace (e : GameEngine) :
    e.popState.trace =
      e.trace ++ backCall .cleanup e.states ++ backCall .resume e.states.dropLast := by
  simp [popState, callBack_trace, cleanupBack_trace, cleanupBack_states]

theorem pushState_states (s : StateId) (e : GameEngine) :
    (e.pushState s).states = e.states ++ [s] := by
  simp [pushState]

theorem pushState_trace (s : StateId) (e : GameEngine) :
    (e.pushState s).trace = e.trace ++ backCall .pause e.states ++ [.hook .init s] := by
  simp [pushState, callBack_trace]

/-- One driver call keeps the invariant, adding the state it pushes (which
must be new) to the pushed states. -/
theorem applyOp_inv (P : List StateId) (e : GameEngine) (op : Op)
    (hI : StackInv P e.states e.trace) (hnew : ∀ s ∈ pushedStates [op], s ∉ P) :
    StackInv (P ++ pushedStates [op]) (applyOp e op).states (applyOp e op).trace := by
  cases op with
  | changeState s =>
    have hs : s ∉ P := hnew s (by simp [pushedStates])
    simp only [applyOp, pushedStates, changeState_states, changeState_trace]
    exact hI.afterCleanupBack.push s hs
  | pushState s =>
    have hs : s ∉ P := hnew s (by simp [pushedStates])
    simp only [applyOp, pushedStates, pushState_states, pushState_trace]
    exact (hI.afterBackCall .pause (by decide) (by decide)).push s hs
  | popState =>
    simp only [applyOp, pushedStates, popState_states, popState_trace, List.append_nil]
    exact hI.afterCleanupBack.afterBackCall .resume (by decide) (by decide)
  | handleEvent evs x y =>
    simp only [applyOp, pushedStates, handleEvent_states, handleEvent_trace, List.append_nil]
    exact hI.afterBackCall .handleEvents (by decide) (by decide)
  | update =>
    simp only [applyOp, pushedStates, update_states, update_trace, List.append_nil]
    exact hI.afterBackCall .update (by decide) (by decide)
  | draw =>
    simp only [applyOp, pushedStates, draw_states, draw_trace, List.append_nil]
    have h1 := hI.quiet [.glViewport e.screenWidth e.screenHeight, .glClearColor, .glClear,
      .glEnableBlend, .glBlendFunc] rfl
    have h2 := h1.quiet
      (match e.mainCamera with
        | some _ => [.getShader, .setView, .setProjection]
        | none => [])
      (by cases e.mainCamera <;> rfl)
    have h3 := h2.quiet [.boxRender, .glDisableBlend] rfl
    exact h3.afterBackCall .draw (by decide) (by decide)

theorem runOps_inv (ops : List Op) (P : List StateId) (e : GameEngine)
    (hI : StackInv P e.states e.trace) (hd : (P ++ pushedStates ops).Nodup) :
    StackInv (P ++ pushedStates ops) (runOps ops e).states (runOps ops e).trace := by
  induction ops generalizing P e with
  | nil => simpa [runOps, pushedStates] using hI
  | cons op ops ih =>
    rw [pushedStates_cons, ← List.append_assoc] at hd ⊢
    have hd1 : (P ++ pushedStates [op]).Nodup := (List.nodup_append.mp hd).1
    have hnew : ∀ s ∈ pushedStates [op], s ∉ P := fun s hs hp =>
      (List.nodup_append.mp hd1).2.2 hp hs
    exact ih (P ++ pushedStates [op]) (applyOp e op) (applyOp_inv P e op hI hnew) hd

/-- C3. Start from an engine with an empty stack on which no hook has been
called, run any finite sequence of `changeState` / `pushState` /
`popState` / `handleEvent` / `update` / `draw` calls whose pushed states
are pairwise distinct, then run `cleanup()`. For every pushed state `s`,
the hook calls received by `s` begin with `init`, contain `init` exactly
once, contain `cleanup` exactly once, and end with `cleanup`. -/
theorem lifecycle (e0 : GameEngine) (ops : List Op)
    (h0 : e0.states = []) (ht : hooksOf e0.trace = [])
    (hd : (pushedStates ops).Nodup) (s : StateId) (hs : s ∈ pushedStates ops) :
    (callsOn s (runOps ops e0).cleanup.trace).head? = some .init ∧
    (callsOn s (runOps ops e0).cleanup.trace).count .init = 1 ∧
    (callsOn s (runOps ops e0).cleanup.trace).count .cleanup = 1 ∧
    (callsOn s (runOps ops e0).cleanup.trace).getLast? = some .cleanup := by
  have hI0 : StackInv [] e0.states e0.trace := by
    rw [h0]; exact StackInv.init_state _ ht
  have hI := runOps_inv ops [] e0 hI0 (by simpa using hd)
  have hfin := (hI.drain).quiet [.deleteInput, .sdlQuit] rfl
  rw [← cleanup_trace (runOps ops e0)] at hfin
  exact (hfin.done s (by simpa using hs) (by simp)).summary

/-- Witness for C3: three distinct states driven through every kind of
call, observed on the state pushed first. -/
theorem lifecycle_witness :
    (callsOn 1 (runOps [.pushState 1, .handleEvent [] 0 0, .update, .draw, .pushState 2,
      .popState, .changeState 3] engine0).cleanup.trace).head? = some .init ∧
    (callsOn 1 (runOps [.pushState 1, .handleEvent [] 0 0, .update, .draw, .pushState 2,
      .popState, .changeState 3] engine0).cleanup.trace).count .init = 1 ∧
    (callsOn 1 (runOps [.pushState 1, .handleEvent [] 0 0, .update, .draw, .pushState 2,
      .popState, .changeState 3] engine0).cleanup.trace).count .cleanup = 1 ∧
    (callsOn 1 (runOps [.pushState 1, .handleEvent [] 0 0, .update, .draw, .pushState 2,
      .popState, .changeState 3] engine0).cleanup.trace).getLast? = some .cleanup :=
  lifecycle engine0 [.pushState 1, .handleEvent [] 0 0, .update, .draw, .pushState 2,
    .popState, .changeState 3] rfl rfl (by decide) 1 (by decide)

end GameEngineSpec
